import Mathlib

/-!
Shallow embedding of the Maven deploy plugin (Go, `main` package) and
verification of its specification.

Strings are modelled as `List Char`; Go's `len` on strings (a UTF-8 byte
count) is modelled by summing `Char.utf8Size`.  The Go standard-library
functions the plugin calls (`filepath.Clean`, `net.IPNet.Contains`, the
`net.IP` classification predicates) are translated faithfully from their
Unix implementations.  External capabilities (URL parsing outcome, DNS
resolution, process execution) are passed in as explicit environments,
and process invocations are returned as an explicit trace.
-/

set_option maxRecDepth 4000

abbrev Str := List Char

/-- Coerce a Lean string literal to the `List Char` model. -/
def strL (s : String) : Str := s.data

/-- Go `len` on a string: the number of UTF-8 bytes. -/
def goLen (s : Str) : Nat := (s.map Char.utf8Size).sum

/-- Character class `[a-zA-Z0-9._-]` of `mavenCoordinatePattern`. -/
def mavenCoordChar (c : Char) : Bool :=
  c.isAlphanum || c = '.' || c = '_' || c = '-'

/-- `mavenCoordinatePattern.MatchString`: the anchored regex
`^[a-zA-Z0-9][a-zA-Z0-9._-]*$`. -/
def mavenCoordinateMatch : Str → Bool
  | [] => false
  | c :: rest => c.isAlphanum && rest.all mavenCoordChar

/-- Character class `[a-zA-Z0-9_-]` of `profilePattern`. -/
def profileChar (c : Char) : Bool :=
  c.isAlphanum || c = '_' || c = '-'

/-- `profilePattern.MatchString`: the anchored regex `^[a-zA-Z][a-zA-Z0-9_-]*$`. -/
def profileMatch : Str → Bool
  | [] => false
  | c :: rest => c.isAlpha && rest.all profileChar

/-- `validateMavenCoordinate(coord, fieldName)`: `none` is success,
`some msg` the returned error text. -/
def validateMavenCoordinate (coord fieldName : Str) : Option Str :=
  if coord = [] then some (fieldName ++ strL " cannot be empty")
  else if goLen coord > 256 then some (fieldName ++ strL " too long (max 256 characters)")
  else if ¬ mavenCoordinateMatch coord then
    some (strL "invalid " ++ fieldName ++ strL ": contains disallowed characters")
  else if strL ".." <:+: coord then some (fieldName ++ strL " cannot contain '..'")
  else none

/-- `validateProfile(profile)`. -/
def validateProfile (profile : Str) : Option Str :=
  if profile = [] then some (strL "profile name cannot be empty")
  else if goLen profile > 128 then some (strL "profile name too long (max 128 characters)")
  else if ¬ profileMatch profile then
    some (strL "invalid profile name: must be alphanumeric with dashes or underscores")
  else none

example : validateMavenCoordinate (strL "com.example") (strL "group_id") = none := by decide
example : validateMavenCoordinate (strL "a..b") (strL "group_id") =
    some (strL "group_id cannot contain '..'") := by decide
example : validateProfile (strL "release") = none := by decide
example : validateProfile (strL "1bad") =
    some (strL "invalid profile name: must be alphanumeric with dashes or underscores") := by
  decide

/-- The backtracking inner loop of `filepath.Clean`'s `..` case:
starting from index `w`, decrement while `w > dotdot` and the character of
`out` at index `w` is not `'/'`. -/
def backW (out : Str) (dotdot : Nat) : Nat → Nat
  | 0 => 0
  | w + 1 =>
    if w + 1 > dotdot ∧ out.getD (w + 1) ' ' ≠ '/' then backW out dotdot w
    else w + 1

/-- The main loop of Go `path/filepath.Clean` (Unix separator `'/'`).
`out` is the logical content of the output buffer, `dotdot` the index
limit below which `..` may not backtrack.  The loop consumes at least one
input character per iteration, so structural recursion on a `fuel`
initialized to the input length computes exactly the Go loop (the
fuel-exhaustion branch is unreachable from `goClean`). -/
def cleanLoop (rooted : Bool) (fuel : Nat) (path out : Str) (dotdot : Nat) : Str :=
  match fuel, path with
  | _, [] => out
  | 0, _ => out
  | fuel + 1, c :: rest =>
    if c = '/' then
      -- empty path element
      cleanLoop rooted fuel rest out dotdot
    else if c = '.' ∧ (rest = [] ∨ rest.head? = some '/') then
      -- "." element
      cleanLoop rooted fuel rest out dotdot
    else if c = '.' ∧ rest.head? = some '.' ∧ (rest.tail = [] ∨ rest.tail.head? = some '/') then
      -- ".." element: remove to last separator
      if out.length > dotdot then
        cleanLoop rooted fuel rest.tail (out.take (backW out dotdot (out.length - 1))) dotdot
      else if rooted = false then
        -- cannot backtrack, but not rooted, so append ".." element
        cleanLoop rooted fuel rest.tail
          ((if out.length > 0 then out ++ ['/'] else out) ++ ['.', '.'])
          ((if out.length > 0 then out ++ ['/'] else out) ++ ['.', '.']).length
      else
        cleanLoop rooted fuel rest.tail out dotdot
    else
      -- real path element: add slash if needed, then copy the element
      cleanLoop rooted fuel (rest.dropWhile (fun x => x ≠ '/'))
        ((if (rooted = true ∧ out.length ≠ 1) ∨ (rooted = false ∧ out.length ≠ 0)
          then out ++ ['/'] else out) ++ (c :: rest.takeWhile (fun x => x ≠ '/'))) dotdot

/-- Go `path/filepath.Clean` on Unix (where `FromSlash` is the identity). -/
def goClean (path : Str) : Str :=
  match path with
  | [] => strL "."
  | c :: rest =>
    let rooted := c = '/'
    let out := if rooted then cleanLoop true path.length rest ['/'] 1
      else cleanLoop false path.length (c :: rest) [] 0
    if out = [] then strL "." else out

/-- Go `path/filepath.IsAbs` on Unix: `strings.HasPrefix(path, "/")`. -/
def goIsAbs (p : Str) : Bool := decide (strL "/" <+: p)

/-- `validatePath(path)`: `none` is success, `some msg` the error text. -/
def validatePath (path : Str) : Option Str :=
  if path = [] then none
  else if goIsAbs (goClean path) then some (strL "absolute paths are not allowed")
  else if (strL ".." <+: goClean path) ∨ (strL "/.." <:+: goClean path) then
    some (strL "path traversal detected: cannot use '..' to escape working directory")
  else none

example : goClean (strL "a/b/../c") = strL "a/c" := by decide
example : goClean (strL "foo/../../../etc/passwd") = strL "../../etc/passwd" := by decide
example : goClean (strL "/a/../../b") = strL "/b" := by decide
example : goClean (strL "./x//y/") = strL "x/y" := by decide
example : goClean (strL "..config") = strL "..config" := by decide
example : goClean (strL "") = strL "." := by decide
example : validatePath (strL "a/../../etc/passwd") =
    some (strL "path traversal detected: cannot use '..' to escape working directory") := by
  decide
example : validatePath (strL "/etc/passwd") = some (strL "absolute paths are not allowed") := by
  decide
example : validatePath (strL "sub/pom.xml") = none := by decide

example : goClean (strL "a/..") = strL "." := by decide
example : goClean (strL "..") = strL ".." := by decide
example : goClean (strL "/..") = strL "/" := by decide
example : goClean (strL "a/b/../../..") = strL ".." := by decide
example : goClean (strL "/a/b/../../../x") = strL "/x" := by decide
example : goClean (strL "a/./b//../c/") = strL "a/c" := by decide

/-- A `net.IP`: a list of bytes, length 4 (IPv4) or 16 (IPv6). -/
abbrev IP := List Nat

/-- Go `net.IP.To4`. -/
def ipTo4 (ip : IP) : Option IP :=
  if ip.length = 4 then some ip
  else if ip.length = 16 ∧ ip.take 12 = [0, 0, 0, 0, 0, 0, 0, 0, 0, 0, 255, 255] then
    some (ip.drop 12)
  else none

/-- Byte-wise masked comparison of Go `net.IPNet.Contains`. -/
def maskMatch (nn m ip : IP) : Bool :=
  (List.range nn.length).all (fun i => (nn.getD i 0) &&& (m.getD i 0) == (ip.getD i 0) &&& (m.getD i 0))

/-- Go `net.IPNet.Contains` for a network given by number `nn` and mask `m`
of equal length (4 or 16, as produced by `net.ParseCIDR`). -/
def cidrContains (nn m ip0 : IP) : Bool :=
  let ip := match ipTo4 ip0 with
    | some x => x
    | none => ip0
  ip.length == nn.length && maskMatch nn m ip

/-- The `privateRanges` CIDR list, as parsed by `net.ParseCIDR`
(network number, mask). -/
def privateRanges : List (IP × IP) :=
  [([10, 0, 0, 0], [255, 0, 0, 0]),
   ([172, 16, 0, 0], [255, 240, 0, 0]),
   ([192, 168, 0, 0], [255, 255, 0, 0]),
   ([127, 0, 0, 0], [255, 0, 0, 0]),
   ([169, 254, 0, 0], [255, 255, 0, 0]),
   ([0, 0, 0, 0], [255, 0, 0, 0])]

/-- The `cloudMetadata` CIDR list: `169.254.169.254/32` and
`fd00:ec2::254/128`, as parsed by `net.ParseCIDR`. -/
def cloudMetadata : List (IP × IP) :=
  [([169, 254, 169, 254], [255, 255, 255, 255]),
   ([253, 0, 14, 194, 0, 0, 0, 0, 0, 0, 0, 0, 0, 0, 2, 84], List.replicate 16 255)]

/-- Go `net.IP.IsLoopback`. -/
def ipIsLoopback (ip : IP) : Bool :=
  match ipTo4 ip with
  | some ip4 => ip4.getD 0 0 == 127
  | none => ip == [0, 0, 0, 0, 0, 0, 0, 0, 0, 0, 0, 0, 0, 0, 0, 1]

/-- Go `net.IP.IsLinkLocalUnicast`. -/
def ipIsLinkLocalUnicast (ip : IP) : Bool :=
  match ipTo4 ip with
  | some ip4 => ip4.getD 0 0 == 169 && ip4.getD 1 0 == 254
  | none => ip.length == 16 && ip.getD 0 0 == 254 && (ip.getD 1 0) &&& 192 == 128

/-- Go `net.IP.IsLinkLocalMulticast`. -/
def ipIsLinkLocalMulticast (ip : IP) : Bool :=
  match ipTo4 ip with
  | some ip4 => ip4.getD 0 0 == 224 && ip4.getD 1 0 == 0 && ip4.getD 2 0 == 0
  | none => ip.length == 16 && ip.getD 0 0 == 255 && (ip.getD 1 0) &&& 15 == 2

/-- Go `net.IP.IsPrivate`. -/
def ipIsPrivate (ip : IP) : Bool :=
  match ipTo4 ip with
  | some ip4 =>
    ip4.getD 0 0 == 10 ||
    (ip4.getD 0 0 == 172 && (ip4.getD 1 0) &&& 240 == 16) ||
    (ip4.getD 0 0 == 192 && ip4.getD 1 0 == 168)
  | none => ip.length == 16 && (ip.getD 0 0) &&& 254 == 252

/-- `isPrivateIP(ip)`: membership in the explicit CIDR list, then the
general-purpose `net.IP` predicates. -/
def isPrivateIP (ip : IP) : Bool :=
  (privateRanges ++ cloudMetadata).any (fun r => cidrContains r.1 r.2 ip) ||
  ipIsLoopback ip || ipIsLinkLocalUnicast ip || ipIsLinkLocalMulticast ip || ipIsPrivate ip

example : isPrivateIP [10, 0, 0, 1] = true := by decide
example : isPrivateIP [172, 16, 0, 1] = true := by decide
example : isPrivateIP [192, 168, 1, 1] = true := by decide
example : isPrivateIP [127, 0, 0, 1] = true := by decide
example : isPrivateIP [169, 254, 169, 254] = true := by decide
example : isPrivateIP [8, 8, 8, 8] = false := by decide
example : isPrivateIP [253, 0, 14, 194, 0, 0, 0, 0, 0, 0, 0, 0, 0, 0, 2, 84] = true := by decide
example : isPrivateIP [1, 1, 1, 1] = false := by decide
example : isPrivateIP [0, 0, 0, 0, 0, 0, 0, 0, 0, 0, 255, 255, 10, 0, 0, 1] = true := by decide

/-- The scheme and hostname extracted from a parsed URL
(`url.Parse` followed by `.Scheme` / `.Hostname()`). -/
structure GoURL where
  scheme : Str
  hostname : Str
deriving DecidableEq

/-- External capabilities consumed by the URL guard: the outcome of
`url.Parse` on the raw string, and of `net.LookupIP` on a hostname. -/
structure NetEnv where
  parseURL : Str → Except Str GoURL
  lookupIP : Str → Except Str (List IP)

/-- `validateRepositoryURL(rawURL)`: `none` is success, `some msg` the
error text. -/
def validateRepositoryURL (env : NetEnv) (rawURL : Str) : Option Str :=
  if rawURL = [] then none -- optional field
  else
    match env.parseURL rawURL with
    | Except.error e => some (strL "invalid URL: " ++ e)
    | Except.ok u =>
      let host := u.hostname
      -- HTTP is allowed only for localhost/127.0.0.1
      let isLocalhost := host = strL "localhost" ∨ host = strL "127.0.0.1" ∨ host = strL "::1"
      if u.scheme ≠ strL "https" ∧ ¬ isLocalhost then
        some (strL "only HTTPS URLs are allowed (got " ++ u.scheme ++ strL ")")
      else if isLocalhost then none
      else
        match env.lookupIP host with
        | Except.error e => some (strL "failed to resolve hostname: " ++ e)
        | Except.ok ips =>
          if ips.any isPrivateIP then
            some (strL "URLs pointing to private networks are not allowed")
          else none

/-- The `Config` struct. -/
structure Config where
  groupID : Str := []
  artifactID : Str := []
  pomPath : Str := []
  username : Str := []
  password : Str := []
  repository : Str := []
  skipTests : Bool := false
  settings : Str := []
  profiles : List Str := []

/-- The profile-checking loop of `buildMavenCommand`: the first failing
profile aborts with its wrapped error. -/
def checkProfiles : List Str → Option Str
  | [] => none
  | p :: rest =>
    match validateProfile p with
    | some e => some (strL "invalid profile '" ++ p ++ strL "': " ++ e)
    | none => checkProfiles rest

/-- `buildMavenCommand(cfg)`: the ordered Maven argument list, or the
first validation error. -/
def buildMavenCommand (cfg : Config) : Except Str (List Str) :=
  let pomPath := if cfg.pomPath = [] then strL "pom.xml" else cfg.pomPath
  match validatePath pomPath with
  | some e => Except.error (strL "invalid pom_path: " ++ e)
  | none =>
    let args1 := [strL "deploy", strL "-f", pomPath]
    let args2 := if cfg.skipTests then args1 ++ [strL "-DskipTests"] else args1
    match (if cfg.settings ≠ [] then validatePath cfg.settings else none) with
    | some e => Except.error (strL "invalid settings path: " ++ e)
    | none =>
      let args3 := if cfg.settings ≠ [] then args2 ++ [strL "-s", cfg.settings] else args2
      if cfg.profiles ≠ [] then
        match checkProfiles cfg.profiles with
        | some e => Except.error e
        | none => Except.ok (args3 ++ [strL "-P", List.intercalate (strL ",") cfg.profiles])
      else Except.ok args3

/-- The first example configuration of the spec's testable properties. -/
def exampleCfgPlain : Config := { pomPath := strL "pom.xml" }

/-- The full example configuration of the spec's testable properties. -/
def exampleCfgFull : Config :=
  { pomPath := strL "pom.xml"
    skipTests := true
    settings := strL "s.xml"
    profiles := [strL "release", strL "sign"] }

example : buildMavenCommand exampleCfgPlain =
    Except.ok [strL "deploy", strL "-f", strL "pom.xml"] := by rfl
example : buildMavenCommand exampleCfgFull =
    Except.ok [strL "deploy", strL "-f", strL "pom.xml", strL "-DskipTests",
      strL "-s", strL "s.xml", strL "-P", strL "release,sign"] := by rfl

/-- A value stored in the `Outputs` map (`map[string]any` in Go). -/
inductive Val where
  | str : Str → Val
  | boolean : Bool → Val
  | strList : List Str → Val
deriving DecidableEq

/-- The `plugin.ExecuteResponse` record (fields used by this plugin). -/
structure Response where
  success : Bool
  message : Str := []
  error : Str := []
  outputs : List (Str × Val) := []
deriving DecidableEq

/-- Result of the external-process capability `CommandExecutor.Run`:
combined output plus an optional error. -/
structure ExecResult where
  output : Str := []
  err : Option Str := none

/-- The external-process capability itself. -/
structure ExecEnv where
  run : Str → List Str → ExecResult

/-- A recorded invocation of the external-process capability:
command name and arguments. -/
abbrev ExecCall := Str × List Str

/-- `deploy(cfg, releaseCtx, dryRun)`, instrumented with the list of
external-process invocations it performs. -/
def deploy (net : NetEnv) (exec : ExecEnv) (cfg : Config) (version : Str) (dryRun : Bool) :
    Response × List ExecCall :=
  match validateMavenCoordinate cfg.groupID (strL "group_id") with
  | some e => ({ success := false, error := e }, [])
  | none =>
  match validateMavenCoordinate cfg.artifactID (strL "artifact_id") with
  | some e => ({ success := false, error := e }, [])
  | none =>
  match validateRepositoryURL net cfg.repository with
  | some e => ({ success := false, error := strL "invalid repository URL: " ++ e }, [])
  | none =>
  match buildMavenCommand cfg with
  | Except.error e => ({ success := false, error := e }, [])
  | Except.ok args =>
    if dryRun then
      ({ success := true
         message := strL "Would deploy Maven artifact"
         outputs := [(strL "group_id", Val.str cfg.groupID),
                     (strL "artifact_id", Val.str cfg.artifactID),
                     (strL "version", Val.str version),
                     (strL "pom_path", Val.str cfg.pomPath),
                     (strL "command", Val.str (strL "mvn " ++ List.intercalate (strL " ") args)),
                     (strL "skip_tests", Val.boolean cfg.skipTests),
                     (strL "profiles", Val.strList cfg.profiles)] }, [])
    else
      let res := exec.run (strL "mvn") args
      match res.err with
      | some e =>
        ({ success := false
           error := strL "Maven deploy failed: " ++ e ++ strL "\nOutput: " ++ res.output },
         [(strL "mvn", args)])
      | none =>
        ({ success := true
           message := strL "Deployed Maven artifact " ++ cfg.groupID ++ strL ":" ++
             cfg.artifactID ++ strL ":" ++ version
           outputs := [(strL "group_id", Val.str cfg.groupID),
                       (strL "artifact_id", Val.str cfg.artifactID),
                       (strL "version", Val.str version)] }, [(strL "mvn", args)])

/-- The `plugin.HookPostPublish` constant of the plugin SDK.  The SDK is an
external collaborator; its concrete string value is irrelevant to every
property proved below. -/
def hookPostPublish : Str := strL "post-publish"

/-- `Execute(ctx, req)` after the SDK has decoded the request into the hook
name, the parsed `Config`, the release version and the dry-run flag,
instrumented with the external-process invocation trace. -/
def Execute (net : NetEnv) (exec : ExecEnv) (hook : Str) (cfg : Config) (version : Str)
    (dryRun : Bool) : Response × List ExecCall :=
  if hook = hookPostPublish then deploy net exec cfg version dryRun
  else ({ success := true, message := strL "Hook " ++ hook ++ strL " not handled" }, [])

/-- The configuration values `Validate` extracts from the raw map via the
SDK's `ConfigParser` (an external collaborator): `group_id`, `artifact_id`,
`repository` and `settings` default to the empty string, `pom_path` to
`"pom.xml"`, `profiles` to the empty list. -/
structure ValidateInput where
  groupID : Str := []
  artifactID : Str := []
  pomPath : Str := strL "pom.xml"
  repository : Str := []
  settings : Str := []
  profiles : List Str := []

/-- A `(field, message)` validation error of `plugin.ValidateResponse`. -/
abbrev FieldError := Str × Str

/-- The `group_id` block of `Validate`. -/
def checkGroupID (groupID : Str) : List FieldError :=
  if groupID = [] then [(strL "group_id", strL "Maven group ID is required")]
  else
    match validateMavenCoordinate groupID (strL "group_id") with
    | some e => [(strL "group_id", e)]
    | none => []

/-- The `artifact_id` block of `Validate`. -/
def checkArtifactID (artifactID : Str) : List FieldError :=
  if artifactID = [] then [(strL "artifact_id", strL "Maven artifact ID is required")]
  else
    match validateMavenCoordinate artifactID (strL "artifact_id") with
    | some e => [(strL "artifact_id", e)]
    | none => []

/-- The `pom_path` block of `Validate`. -/
def checkPomPath (pomPath : Str) : List FieldError :=
  match validatePath pomPath with
  | some e => [(strL "pom_path", e)]
  | none => []

/-- The `repository` block of `Validate`. -/
def checkRepository (net : NetEnv) (repository : Str) : List FieldError :=
  if repository ≠ [] then
    match validateRepositoryURL net repository with
    | some e => [(strL "repository", e)]
    | none => []
  else []

/-- The `settings` block of `Validate`. -/
def checkSettings (settings : Str) : List FieldError :=
  if settings ≠ [] then
    match validatePath settings with
    | some e => [(strL "settings", e)]
    | none => []
  else []

/-- The `profiles` loop of `Validate`: every element is checked and every
failure is recorded. -/
def checkProfileList (profiles : List Str) : List FieldError :=
  profiles.flatMap (fun p =>
    match validateProfile p with
    | some e => [(strL "profiles", strL "invalid profile '" ++ p ++ strL "': " ++ e)]
    | none => [])

/-- `Validate(ctx, config)`: the `ValidationBuilder` collects every error;
`Build` reports `Valid` iff no error was added.  Result: `(valid, errors)`. -/
def Validate (net : NetEnv) (v : ValidateInput) : Bool × List FieldError :=
  let errors := checkGroupID v.groupID ++ checkArtifactID v.artifactID ++
    checkPomPath v.pomPath ++ checkRepository net v.repository ++
    checkSettings v.settings ++ checkProfileList v.profiles
  (errors.isEmpty, errors)

/-- C5: `validateCoordinate` applies its rules in order — empty, then
byte-length over 256, then the anchored grammar, then the literal `".."`
substring — and accepts values passing all four checks. -/
theorem validateMavenCoordinate_order (coord f : Str) :
    (coord = [] → validateMavenCoordinate coord f = some (f ++ strL " cannot be empty")) ∧
    (coord ≠ [] → goLen coord > 256 →
      validateMavenCoordinate coord f = some (f ++ strL " too long (max 256 characters)")) ∧
    (coord ≠ [] → goLen coord ≤ 256 → mavenCoordinateMatch coord = false →
      validateMavenCoordinate coord f =
        some (strL "invalid " ++ f ++ strL ": contains disallowed characters")) ∧
    (coord ≠ [] → goLen coord ≤ 256 → mavenCoordinateMatch coord = true →
      strL ".." <:+: coord →
      validateMavenCoordinate coord f = some (f ++ strL " cannot contain '..'")) ∧
    (coord ≠ [] → goLen coord ≤ 256 → mavenCoordinateMatch coord = true →
      ¬ (strL ".." <:+: coord) → validateMavenCoordinate coord f = none) := by
  refine ⟨?_, ?_, ?_, ?_, ?_⟩
  · intro h
    simp [validateMavenCoordinate, h]
  · intro h1 h2
    rw [validateMavenCoordinate, if_neg h1, if_pos h2]
  · intro h1 h2 h3
    rw [validateMavenCoordinate, if_neg h1, if_neg (by omega), if_pos (by simp [h3])]
  · intro h1 h2 h3 h4
    rw [validateMavenCoordinate, if_neg h1, if_neg (by omega), if_neg (by simp [h3]),
      if_pos h4]
  · intro h1 h2 h3 h4
    rw [validateMavenCoordinate, if_neg h1, if_neg (by omega), if_neg (by simp [h3]),
      if_neg h4]

/-- Witness for C5: the fourth rule fires on `"a..b"` (which passes the
grammar) and a plain coordinate is accepted. -/
theorem validateMavenCoordinate_order_witness :
    validateMavenCoordinate (strL "a..b") (strL "group_id") =
      some (strL "group_id cannot contain '..'") ∧
    validateMavenCoordinate (strL "com.example") (strL "group_id") = none :=
  ⟨(validateMavenCoordinate_order (strL "a..b") (strL "group_id")).2.2.2.1
      (by decide) (by decide) (by decide) (by decide),
   (validateMavenCoordinate_order (strL "com.example") (strL "group_id")).2.2.2.2
      (by decide) (by decide) (by decide) (by decide)⟩

/-- The hostile inputs of the injection property: a semicolon, the
substring `"$("`, a backtick (`0x60`), or a whitespace character. -/
def hostile (s : Str) : Prop :=
  (';' ∈ s) ∨ (strL "$(" <:+: s) ∨ (Char.ofNat 96 ∈ s) ∨ (∃ c ∈ s, c.isWhitespace)

instance (s : Str) : Decidable (hostile s) := by
  unfold hostile
  infer_instance

/-- A hostile string holds a character outside both identifier grammars. -/
lemma hostile_bad_char {s : Str} (h : hostile s) :
    ∃ c ∈ s, mavenCoordChar c = false ∧ profileChar c = false := by
  rcases h with h | h | h | ⟨c, hc, hw⟩
  · exact ⟨';', h, by decide, by decide⟩
  · exact ⟨'$', h.subset (by decide), by decide, by decide⟩
  · exact ⟨Char.ofNat 96, h, by decide, by decide⟩
  · refine ⟨c, hc, ?_⟩
    have : ((c = ' ' ∨ c = '\t') ∨ c = '\x0d') ∨ c = '\n' := by
      simpa [Char.isWhitespace] using hw
    rcases this with ((h | h) | h) | h <;> subst h <;> exact ⟨by decide, by decide⟩

/-- A string holding a character outside `[a-zA-Z0-9._-]` cannot match
`mavenCoordinatePattern`. -/
lemma mavenCoordinateMatch_false {s : Str} {c : Char} (hc : c ∈ s)
    (hb : mavenCoordChar c = false) : mavenCoordinateMatch s = false := by
  cases s with
  | nil => cases hc
  | cons a rest =>
    have ha : a.isAlphanum = false ∨ rest.all mavenCoordChar = false := by
      rcases List.mem_cons.mp hc with h | h
      · subst h
        left
        have := hb
        unfold mavenCoordChar at this
        rcases Bool.or_eq_false_iff.mp this with ⟨h1, _⟩
        rcases Bool.or_eq_false_iff.mp h1 with ⟨h2, _⟩
        exact (Bool.or_eq_false_iff.mp h2).1
      · right
        exact List.all_eq_false.mpr ⟨c, h, by simp [hb]⟩
    unfold mavenCoordinateMatch
    rcases ha with h | h <;> simp [h]

/-- A string holding a character outside `[a-zA-Z0-9_-]` cannot match
`profilePattern`. -/
lemma profileMatch_false {s : Str} {c : Char} (hc : c ∈ s)
    (hb : profileChar c = false) : profileMatch s = false := by
  cases s with
  | nil => cases hc
  | cons a rest =>
    have ha : a.isAlpha = false ∨ rest.all profileChar = false := by
      rcases List.mem_cons.mp hc with h | h
      · left
        rw [← h]
        have h1 : c.isAlphanum = false := by
          unfold profileChar at hb
          rcases Bool.or_eq_false_iff.mp hb with ⟨h2, _⟩
          exact (Bool.or_eq_false_iff.mp h2).1
        unfold Char.isAlphanum at h1
        exact (Bool.or_eq_false_iff.mp h1).1
      · right
        exact List.all_eq_false.mpr ⟨c, h, by simp [hb]⟩
    unfold profileMatch
    rcases ha with h | h <;> simp [h]

/-- C4 counterexample: a string of 257 semicolons contains `';'` but is
rejected by the length rule of both validators, which fires before the
grammar rule, so neither returns the grammar error. -/
theorem validateCoordinate_grammar_cex :
    (';' ∈ List.replicate 257 ';') ∧
    validateMavenCoordinate (List.replicate 257 ';') (strL "group_id") =
      some (strL "group_id too long (max 256 characters)") ∧
    validateProfile (List.replicate 257 ';') =
      some (strL "profile name too long (max 128 characters)") ∧
    strL "group_id too long (max 256 characters)" ≠
      strL "invalid group_id: contains disallowed characters" ∧
    strL "profile name too long (max 128 characters)" ≠
      strL "invalid profile name: must be alphanumeric with dashes or underscores" := by
  refine ⟨by simp [List.mem_replicate], by rfl, by rfl, by decide, by decide⟩

/-- C4 as amended: every string containing a semicolon, `"$("`, a backtick
or whitespace is rejected by both validators (never ok), and whenever the
string also passes the earlier length rule the rejection is the
grammar/disallowed-characters error. -/
theorem hostile_rejected (s f : Str) (h : hostile s) :
    validateMavenCoordinate s f ≠ none ∧ validateProfile s ≠ none ∧
    (goLen s ≤ 256 → validateMavenCoordinate s f =
      some (strL "invalid " ++ f ++ strL ": contains disallowed characters")) ∧
    (goLen s ≤ 128 → validateProfile s =
      some (strL "invalid profile name: must be alphanumeric with dashes or underscores")) := by
  obtain ⟨c, hc, hb1, hb2⟩ := hostile_bad_char h
  have hs : s ≠ [] := by
    intro e
    rw [e] at hc
    cases hc
  have hm := mavenCoordinateMatch_false hc hb1
  have hp := profileMatch_false hc hb2
  refine ⟨?_, ?_, ?_, ?_⟩
  · by_cases hl : goLen s > 256
    · rw [validateMavenCoordinate, if_neg hs, if_pos hl]
      simp
    · rw [validateMavenCoordinate, if_neg hs, if_neg hl, if_pos (by simp [hm])]
      simp
  · by_cases hl : goLen s > 128
    · rw [validateProfile, if_neg hs, if_pos hl]
      simp
    · rw [validateProfile, if_neg hs, if_neg hl, if_pos (by simp [hp])]
      simp
  · intro hl
    rw [validateMavenCoordinate, if_neg hs, if_neg (by omega), if_pos (by simp [hm])]
  · intro hl
    rw [validateProfile, if_neg hs, if_neg (by omega), if_pos (by simp [hp])]

/-- Witness for the amended C4: a space and a semicolon draw the grammar
error at short length. -/
theorem hostile_rejected_witness :
    validateMavenCoordinate (strL "a b") (strL "group_id") =
      some (strL "invalid " ++ strL "group_id" ++ strL ": contains disallowed characters") ∧
    validateProfile (strL "x;y") ≠ none :=
  ⟨(hostile_rejected (strL "a b") (strL "group_id") (by decide)).2.2.1 (by decide),
   (hostile_rejected (strL "x;y") (strL "group_id") (by decide)).2.1⟩

/-- Membership in any entry of the CIDR table makes `isPrivateIP` true. -/
lemma isPrivateIP_of_range (ip : IP) (r : IP × IP) (hr : r ∈ privateRanges ++ cloudMetadata)
    (h : cidrContains r.1 r.2 ip = true) : isPrivateIP ip = true := by
  unfold isPrivateIP
  rw [List.any_eq_true.mpr ⟨r, hr, h⟩]
  simp

/-- C6: `isPrivateIP` covers each CIDR of the enumeration, both metadata
addresses, everything the general-purpose `net.IP` predicates classify as
loopback, link-local or private, the spec's five positive examples, and
rejects `8.8.8.8`. -/
theorem isPrivateIP_spec :
    (∀ b c d : Nat, b < 256 → c < 256 → d < 256 → isPrivateIP [10, b, c, d] = true) ∧
    (∀ b c d : Nat, 16 ≤ b → b ≤ 31 → c < 256 → d < 256 → isPrivateIP [172, b, c, d] = true) ∧
    (∀ c d : Nat, c < 256 → d < 256 → isPrivateIP [192, 168, c, d] = true) ∧
    (∀ b c d : Nat, b < 256 → c < 256 → d < 256 → isPrivateIP [127, b, c, d] = true) ∧
    (∀ c d : Nat, c < 256 → d < 256 → isPrivateIP [169, 254, c, d] = true) ∧
    (∀ b c d : Nat, b < 256 → c < 256 → d < 256 → isPrivateIP [0, b, c, d] = true) ∧
    isPrivateIP [169, 254, 169, 254] = true ∧
    isPrivateIP [253, 0, 14, 194, 0, 0, 0, 0, 0, 0, 0, 0, 0, 0, 2, 84] = true ∧
    (∀ ip : IP, ipIsLoopback ip = true → isPrivateIP ip = true) ∧
    (∀ ip : IP, ipIsLinkLocalUnicast ip = true → isPrivateIP ip = true) ∧
    (∀ ip : IP, ipIsLinkLocalMulticast ip = true → isPrivateIP ip = true) ∧
    (∀ ip : IP, ipIsPrivate ip = true → isPrivateIP ip = true) ∧
    isPrivateIP [10, 0, 0, 1] = true ∧ isPrivateIP [172, 16, 0, 1] = true ∧
    isPrivateIP [192, 168, 1, 1] = true ∧ isPrivateIP [127, 0, 0, 1] = true ∧
    isPrivateIP [8, 8, 8, 8] = false := by
  refine ⟨?_, ?_, ?_, ?_, ?_, ?_, by decide, by decide, ?_, ?_, ?_, ?_,
    by decide, by decide, by decide, by decide, by decide⟩
  · intro b c d _ _ _
    refine isPrivateIP_of_range _ ([10, 0, 0, 0], [255, 0, 0, 0]) (by decide) ?_
    simp [cidrContains, ipTo4, maskMatch, List.range_succ]
  · intro b c d h1 h2 _ _
    refine isPrivateIP_of_range _ ([172, 16, 0, 0], [255, 240, 0, 0]) (by decide) ?_
    have hb : b &&& 240 = 16 := by
      have : ∀ x : Nat, x < 32 → 16 ≤ x → x &&& 240 = 16 := by decide
      exact this b (by omega) h1
    simp [cidrContains, ipTo4, maskMatch, List.range_succ, hb]
    decide
  · intro c d _ _
    refine isPrivateIP_of_range _ ([192, 168, 0, 0], [255, 255, 0, 0]) (by decide) ?_
    simp [cidrContains, ipTo4, maskMatch, List.range_succ]
  · intro b c d _ _ _
    refine isPrivateIP_of_range _ ([127, 0, 0, 0], [255, 0, 0, 0]) (by decide) ?_
    simp [cidrContains, ipTo4, maskMatch, List.range_succ]
  · intro c d _ _
    refine isPrivateIP_of_range _ ([169, 254, 0, 0], [255, 255, 0, 0]) (by decide) ?_
    simp [cidrContains, ipTo4, maskMatch, List.range_succ]
  · intro b c d _ _ _
    refine isPrivateIP_of_range _ ([0, 0, 0, 0], [255, 0, 0, 0]) (by decide) ?_
    simp [cidrContains, ipTo4, maskMatch, List.range_succ]
  · intro ip h
    unfold isPrivateIP
    simp [h]
  · intro ip h
    unfold isPrivateIP
    simp [h]
  · intro ip h
    unfold isPrivateIP
    simp [h]
  · intro ip h
    unfold isPrivateIP
    simp [h]

/-- Witness for C6: the universally quantified range and predicate clauses
instantiated at concrete addresses. -/
theorem isPrivateIP_spec_witness :
    isPrivateIP [10, 1, 2, 3] = true ∧ isPrivateIP [172, 20, 5, 6] = true ∧
    isPrivateIP [192, 168, 77, 1] = true ∧ isPrivateIP [127, 9, 9, 9] = true ∧
    isPrivateIP [169, 254, 3, 4] = true ∧ isPrivateIP [0, 1, 2, 3] = true ∧
    isPrivateIP [0, 0, 0, 0, 0, 0, 0, 0, 0, 0, 0, 0, 0, 0, 0, 1] = true ∧
    isPrivateIP [254, 128, 0, 0, 0, 0, 0, 0, 0, 0, 0, 0, 0, 0, 0, 9] = true ∧
    isPrivateIP [255, 2, 0, 0, 0, 0, 0, 0, 0, 0, 0, 0, 0, 0, 0, 1] = true ∧
    isPrivateIP [252, 0, 0, 0, 0, 0, 0, 0, 0, 0, 0, 0, 0, 0, 0, 7] = true :=
  ⟨isPrivateIP_spec.1 1 2 3 (by decide) (by decide) (by decide),
   isPrivateIP_spec.2.1 20 5 6 (by decide) (by decide) (by decide) (by decide),
   isPrivateIP_spec.2.2.1 77 1 (by decide) (by decide),
   isPrivateIP_spec.2.2.2.1 9 9 9 (by decide) (by decide) (by decide),
   isPrivateIP_spec.2.2.2.2.1 3 4 (by decide) (by decide),
   isPrivateIP_spec.2.2.2.2.2.1 1 2 3 (by decide) (by decide) (by decide),
   isPrivateIP_spec.2.2.2.2.2.2.2.2.1 _ (by decide),
   isPrivateIP_spec.2.2.2.2.2.2.2.2.2.1 _ (by decide),
   isPrivateIP_spec.2.2.2.2.2.2.2.2.2.2.1 _ (by decide),
   isPrivateIP_spec.2.2.2.2.2.2.2.2.2.2.2.1 _ (by decide)⟩

/-- C1: the repository URL guard accepts the empty string, accepts any
parsed localhost host unconditionally, demands HTTPS for everything else,
and otherwise resolves the host and rejects exactly when a resolved
address is private (with a resolution error if DNS fails). -/
theorem validateRepositoryURL_spec (env : NetEnv) (raw : Str) :
    (validateRepositoryURL env [] = none) ∧
    (∀ u : GoURL, raw ≠ [] → env.parseURL raw = Except.ok u →
      (u.hostname = strL "localhost" ∨ u.hostname = strL "127.0.0.1" ∨ u.hostname = strL "::1") →
      validateRepositoryURL env raw = none) ∧
    (∀ u : GoURL, raw ≠ [] → env.parseURL raw = Except.ok u →
      u.scheme ≠ strL "https" →
      ¬ (u.hostname = strL "localhost" ∨ u.hostname = strL "127.0.0.1" ∨
         u.hostname = strL "::1") →
      validateRepositoryURL env raw =
          some (strL "only HTTPS URLs are allowed (got " ++ u.scheme ++ strL ")") ∧
        strL "HTTPS" <:+: strL "only HTTPS URLs are allowed (got " ++ u.scheme ++ strL ")") ∧
    (∀ (u : GoURL) (ips : List IP), raw ≠ [] → env.parseURL raw = Except.ok u →
      u.scheme = strL "https" →
      ¬ (u.hostname = strL "localhost" ∨ u.hostname = strL "127.0.0.1" ∨
         u.hostname = strL "::1") →
      env.lookupIP u.hostname = Except.ok ips →
      ((∃ msg, validateRepositoryURL env raw = some msg ∧ strL "private networks" <:+: msg) ↔
        ips.any isPrivateIP = true)) ∧
    (∀ (u : GoURL) (e : Str), raw ≠ [] → env.parseURL raw = Except.ok u →
      u.scheme = strL "https" →
      ¬ (u.hostname = strL "localhost" ∨ u.hostname = strL "127.0.0.1" ∨
         u.hostname = strL "::1") →
      env.lookupIP u.hostname = Except.error e →
      validateRepositoryURL env raw = some (strL "failed to resolve hostname: " ++ e)) := by
  refine ⟨by rw [validateRepositoryURL, if_pos rfl], ?_, ?_, ?_, ?_⟩
  · intro u hraw hp hloc
    rw [validateRepositoryURL, if_neg hraw, hp]
    simp only
    rw [if_neg (by tauto), if_pos hloc]
  · intro u hraw hp hs hloc
    constructor
    · rw [validateRepositoryURL, if_neg hraw, hp]
      simp only
      rw [if_pos ⟨hs, hloc⟩]
    · have h1 : strL "HTTPS" <:+: strL "only HTTPS URLs are allowed (got " := by decide
      have h2 : strL "only HTTPS URLs are allowed (got " <+:
          strL "only HTTPS URLs are allowed (got " ++ u.scheme ++ strL ")" := by
        rw [List.append_assoc]
        exact List.prefix_append _ _
      exact h1.trans h2.isInfix
  · intro u ips hraw hp hs hloc hdns
    have hres : validateRepositoryURL env raw =
        (if ips.any isPrivateIP then
          some (strL "URLs pointing to private networks are not allowed") else none) := by
      rw [validateRepositoryURL, if_neg hraw, hp]
      simp only
      rw [if_neg (by tauto), if_neg hloc, hdns]
    constructor
    · rintro ⟨msg, hmsg, _⟩
      by_contra hany
      rw [hres, if_neg (by simpa using hany)] at hmsg
      cases hmsg
    · intro hany
      refine ⟨strL "URLs pointing to private networks are not allowed", ?_, by decide⟩
      rw [hres, if_pos hany]
  · intro u e hraw hp hs hloc hdns
    rw [validateRepositoryURL, if_neg hraw, hp]
    simp only
    rw [if_neg (by tauto), if_neg hloc, hdns]

/-- A concrete network environment for witnessing the URL-guard theorem. -/
def witnessNet : NetEnv where
  parseURL raw :=
    if raw = strL "http://localhost:8081/x" then
      Except.ok { scheme := strL "http", hostname := strL "localhost" }
    else if raw = strL "http://evil.example.com" then
      Except.ok { scheme := strL "http", hostname := strL "evil.example.com" }
    else if raw = strL "https://metadata.example" then
      Except.ok { scheme := strL "https", hostname := strL "metadata.example" }
    else if raw = strL "https://unknown.example" then
      Except.ok { scheme := strL "https", hostname := strL "unknown.example" }
    else Except.error (strL "parse error")
  lookupIP host :=
    if host = strL "metadata.example" then Except.ok [[169, 254, 169, 254]]
    else if host = strL "repo.example.com" then Except.ok [[93, 184, 216, 34]]
    else Except.error (strL "no such host")

/-- Witness for C1: each clause of the URL-guard theorem at a concrete URL
over the concrete environment. -/
theorem validateRepositoryURL_spec_witness :
    validateRepositoryURL witnessNet [] = none ∧
    validateRepositoryURL witnessNet (strL "http://localhost:8081/x") = none ∧
    validateRepositoryURL witnessNet (strL "http://evil.example.com") =
      some (strL "only HTTPS URLs are allowed (got " ++ strL "http" ++ strL ")") ∧
    (∃ msg, validateRepositoryURL witnessNet (strL "https://metadata.example") = some msg ∧
      strL "private networks" <:+: msg) ∧
    validateRepositoryURL witnessNet (strL "https://unknown.example") =
      some (strL "failed to resolve hostname: " ++ strL "no such host") :=
  ⟨(validateRepositoryURL_spec witnessNet []).1,
   (validateRepositoryURL_spec witnessNet (strL "http://localhost:8081/x")).2.1
     { scheme := strL "http", hostname := strL "localhost" }
     (by decide) (by rfl) (by decide),
   ((validateRepositoryURL_spec witnessNet (strL "http://evil.example.com")).2.2.1
     { scheme := strL "http", hostname := strL "evil.example.com" }
     (by decide) (by rfl) (by decide) (by decide)).1,
   ((validateRepositoryURL_spec witnessNet (strL "https://metadata.example")).2.2.2.1
     { scheme := strL "https", hostname := strL "metadata.example" }
     [[169, 254, 169, 254]]
     (by decide) (by rfl) (by decide) (by decide) (by rfl)).mpr (by decide),
   (validateRepositoryURL_spec witnessNet (strL "https://unknown.example")).2.2.2.2
     { scheme := strL "https", hostname := strL "unknown.example" } (strL "no such host")
     (by decide) (by rfl) (by decide) (by decide) (by rfl)⟩

/-- C3: for every configuration whose path and profile fields pass
validation, `buildMavenCommand` produces the fixed token order
`deploy`, `-f` pom, `-DskipTests`?, `-s` settings?, `-P` profiles?. -/
theorem buildMavenCommand_spec (cfg : Config)
    (hpom : validatePath (if cfg.pomPath = [] then strL "pom.xml" else cfg.pomPath) = none)
    (hset : cfg.settings ≠ [] → validatePath cfg.settings = none)
    (hprof : checkProfiles cfg.profiles = none) :
    buildMavenCommand cfg = Except.ok
      ([strL "deploy", strL "-f", if cfg.pomPath = [] then strL "pom.xml" else cfg.pomPath] ++
       (if cfg.skipTests then [strL "-DskipTests"] else []) ++
       (if cfg.settings ≠ [] then [strL "-s", cfg.settings] else []) ++
       (if cfg.profiles ≠ [] then [strL "-P", List.intercalate (strL ",") cfg.profiles]
        else [])) := by
  by_cases hs : cfg.settings = []
  · by_cases hpr : cfg.profiles = [] <;> simp [buildMavenCommand, hpom, hs, hpr, hprof] <;>
      by_cases hst : cfg.skipTests = true <;> simp [hst]
  · have hset2 := hset hs
    by_cases hpr : cfg.profiles = [] <;>
      simp [buildMavenCommand, hpom, hs, hpr, hprof, hset2] <;>
        by_cases hst : cfg.skipTests = true <;> simp [hst]

/-- Witness for C3: the two example configurations of the spec. -/
theorem buildMavenCommand_spec_witness :
    buildMavenCommand exampleCfgFull = Except.ok [strL "deploy", strL "-f", strL "pom.xml",
      strL "-DskipTests", strL "-s", strL "s.xml", strL "-P", strL "release,sign"] ∧
    buildMavenCommand exampleCfgPlain = Except.ok [strL "deploy", strL "-f", strL "pom.xml"] := by
  constructor
  · have h := buildMavenCommand_spec exampleCfgFull (by decide) (fun _ => by decide) (by rfl)
    simpa [exampleCfgFull] using h
  · have h := buildMavenCommand_spec exampleCfgPlain (by decide) (fun _ => by decide) (by rfl)
    simpa [exampleCfgPlain] using h

/-- A concrete always-succeeding executor for witnessing orchestrator
theorems. -/
def witnessExec : ExecEnv where
  run _ _ := { output := strL "BUILD SUCCESS", err := none }

/-- The injection-attempt configuration of the spec's testable properties. -/
def hostileCfg : Config :=
  { groupID := strL "com.example; rm -rf /", artifactID := strL "my-app" }

/-- A minimal configuration passing every validation. -/
def goodCfg : Config := { groupID := strL "com.example", artifactID := strL "my-app" }

/-- C7: the external-process capability is never invoked when a validation
fails or on dry run, and is invoked exactly once, as `mvn` with the built
argument list, on a passing non-dry-run deploy; the injection attempt in
`group_id` is rejected with no process run. -/
theorem deploy_exec_gating (net : NetEnv) (exec : ExecEnv) (cfg : Config) (version : Str) :
    (∀ (dryRun : Bool) (e : Str),
      validateMavenCoordinate cfg.groupID (strL "group_id") = some e →
      deploy net exec cfg version dryRun = ({ success := false, error := e }, [])) ∧
    (∀ (dryRun : Bool) (e : Str),
      validateMavenCoordinate cfg.groupID (strL "group_id") = none →
      validateMavenCoordinate cfg.artifactID (strL "artifact_id") = some e →
      deploy net exec cfg version dryRun = ({ success := false, error := e }, [])) ∧
    (∀ (dryRun : Bool) (e : Str),
      validateMavenCoordinate cfg.groupID (strL "group_id") = none →
      validateMavenCoordinate cfg.artifactID (strL "artifact_id") = none →
      validateRepositoryURL net cfg.repository = some e →
      deploy net exec cfg version dryRun =
        ({ success := false, error := strL "invalid repository URL: " ++ e }, [])) ∧
    (∀ (dryRun : Bool) (e : Str),
      validateMavenCoordinate cfg.groupID (strL "group_id") = none →
      validateMavenCoordinate cfg.artifactID (strL "artifact_id") = none →
      validateRepositoryURL net cfg.repository = none →
      buildMavenCommand cfg = Except.error e →
      deploy net exec cfg version dryRun = ({ success := false, error := e }, [])) ∧
    (∀ args : List Str,
      validateMavenCoordinate cfg.groupID (strL "group_id") = none →
      validateMavenCoordinate cfg.artifactID (strL "artifact_id") = none →
      validateRepositoryURL net cfg.repository = none →
      buildMavenCommand cfg = Except.ok args →
      (deploy net exec cfg version true).2 = [] ∧
      (deploy net exec cfg version false).2 = [(strL "mvn", args)]) ∧
    (Execute net exec hookPostPublish hostileCfg version false =
      ({ success := false, error := strL "invalid group_id: contains disallowed characters" },
        []) ∧
     strL "invalid group_id" <:+: strL "invalid group_id: contains disallowed characters") := by
  refine ⟨?_, ?_, ?_, ?_, ?_, by rfl, by decide⟩
  · intro dryRun e h
    simp [deploy, h]
  · intro dryRun e h1 h2
    simp [deploy, h1, h2]
  · intro dryRun e h1 h2 h3
    simp [deploy, h1, h2, h3]
  · intro dryRun e h1 h2 h3 h4
    simp [deploy, h1, h2, h3, h4]
  · intro args h1 h2 h3 h4
    refine ⟨by simp [deploy, h1, h2, h3, h4], ?_⟩
    cases h : (exec.run (strL "mvn") args).err <;> simp [deploy, h1, h2, h3, h4, h]

/-- Witness for C7: a failing configuration runs nothing; the passing
configuration runs `mvn` exactly once with the built arguments. -/
theorem deploy_exec_gating_witness :
    deploy witnessNet witnessExec { groupID := [] } (strL "v1.0.0") false =
      ({ success := false, error := strL "group_id cannot be empty" }, []) ∧
    (deploy witnessNet witnessExec goodCfg (strL "v1.0.0") true).2 = [] ∧
    (deploy witnessNet witnessExec goodCfg (strL "v1.0.0") false).2 =
      [(strL "mvn", [strL "deploy", strL "-f", strL "pom.xml"])] :=
  ⟨(deploy_exec_gating witnessNet witnessExec { groupID := [] } (strL "v1.0.0")).1
      false (strL "group_id cannot be empty") (by rfl),
   ((deploy_exec_gating witnessNet witnessExec goodCfg (strL "v1.0.0")).2.2.2.2.1
      [strL "deploy", strL "-f", strL "pom.xml"] (by rfl) (by rfl) (by rfl) (by rfl)).1,
   ((deploy_exec_gating witnessNet witnessExec goodCfg (strL "v1.0.0")).2.2.2.2.1
      [strL "deploy", strL "-f", strL "pom.xml"] (by rfl) (by rfl) (by rfl) (by rfl)).2⟩

/-- C9: a validated dry run reports the full preview outputs; a successful
real execution reports the deployed-artifact message and the coordinate
outputs; any other hook is answered with success and a not-handled
message, without reaching the deploy logic. -/
theorem Execute_outputs_spec (net : NetEnv) (exec : ExecEnv) (cfg : Config) (version : Str) :
    (∀ args : List Str,
      validateMavenCoordinate cfg.groupID (strL "group_id") = none →
      validateMavenCoordinate cfg.artifactID (strL "artifact_id") = none →
      validateRepositoryURL net cfg.repository = none →
      buildMavenCommand cfg = Except.ok args →
      deploy net exec cfg version true =
        ({ success := true
           message := strL "Would deploy Maven artifact"
           outputs := [(strL "group_id", Val.str cfg.groupID),
                       (strL "artifact_id", Val.str cfg.artifactID),
                       (strL "version", Val.str version),
                       (strL "pom_path", Val.str cfg.pomPath),
                       (strL "command",
                        Val.str (strL "mvn " ++ List.intercalate (strL " ") args)),
                       (strL "skip_tests", Val.boolean cfg.skipTests),
                       (strL "profiles", Val.strList cfg.profiles)] }, [])) ∧
    (∀ args : List Str,
      validateMavenCoordinate cfg.groupID (strL "group_id") = none →
      validateMavenCoordinate cfg.artifactID (strL "artifact_id") = none →
      validateRepositoryURL net cfg.repository = none →
      buildMavenCommand cfg = Except.ok args →
      (exec.run (strL "mvn") args).err = none →
      (deploy net exec cfg version false).1 =
        { success := true
          message := strL "Deployed Maven artifact " ++ cfg.groupID ++ strL ":" ++
            cfg.artifactID ++ strL ":" ++ version
          outputs := [(strL "group_id", Val.str cfg.groupID),
                      (strL "artifact_id", Val.str cfg.artifactID),
                      (strL "version", Val.str version)] }) ∧
    (∀ hook : Str, hook ≠ hookPostPublish →
      Execute net exec hook cfg version false =
        ({ success := true, message := strL "Hook " ++ hook ++ strL " not handled" }, [])) := by
  refine ⟨?_, ?_, ?_⟩
  · intro args h1 h2 h3 h4
    simp [deploy, h1, h2, h3, h4]
  · intro args h1 h2 h3 h4 h5
    simp [deploy, h1, h2, h3, h4, h5]
  · intro hook h
    simp [Execute, h]

/-- Witness for C9: the passing configuration on a dry run, a successful
real run, and an unhandled hook. -/
theorem Execute_outputs_spec_witness :
    deploy witnessNet witnessExec goodCfg (strL "v1.0.0") true =
      ({ success := true
         message := strL "Would deploy Maven artifact"
         outputs := [(strL "group_id", Val.str (strL "com.example")),
                     (strL "artifact_id", Val.str (strL "my-app")),
                     (strL "version", Val.str (strL "v1.0.0")),
                     (strL "pom_path", Val.str []),
                     (strL "command", Val.str (strL "mvn " ++
                       List.intercalate (strL " ")
                         [strL "deploy", strL "-f", strL "pom.xml"])),
                     (strL "skip_tests", Val.boolean false),
                     (strL "profiles", Val.strList [])] }, []) ∧
    (deploy witnessNet witnessExec goodCfg (strL "v1.0.0") false).1 =
      { success := true
        message := strL "Deployed Maven artifact " ++ strL "com.example" ++ strL ":" ++
          strL "my-app" ++ strL ":" ++ strL "v1.0.0"
        outputs := [(strL "group_id", Val.str (strL "com.example")),
                    (strL "artifact_id", Val.str (strL "my-app")),
                    (strL "version", Val.str (strL "v1.0.0"))] } ∧
    Execute witnessNet witnessExec (strL "pre-publish") goodCfg (strL "v1.0.0") false =
      ({ success := true,
         message := strL "Hook " ++ strL "pre-publish" ++ strL " not handled" }, []) :=
  ⟨(Execute_outputs_spec witnessNet witnessExec goodCfg (strL "v1.0.0")).1
     [strL "deploy", strL "-f", strL "pom.xml"] (by rfl) (by rfl) (by rfl) (by rfl),
   (Execute_outputs_spec witnessNet witnessExec goodCfg (strL "v1.0.0")).2.1
     [strL "deploy", strL "-f", strL "pom.xml"] (by rfl) (by rfl) (by rfl) (by rfl) (by rfl),
   (Execute_outputs_spec witnessNet witnessExec goodCfg (strL "v1.0.0")).2.2
     (strL "pre-publish") (by decide)⟩

/-- C8: `Validate` is exhaustive: its error list is the concatenation of
six per-field checks, each a function of its own field only; validity is
exactly emptiness of that list; an empty configuration reports both
missing coordinates together; any failing profile's error is always
collected. -/
theorem Validate_exhaustive (net : NetEnv) (v : ValidateInput) :
    ((Validate net v).2 = checkGroupID v.groupID ++ checkArtifactID v.artifactID ++
      checkPomPath v.pomPath ++ checkRepository net v.repository ++
      checkSettings v.settings ++ checkProfileList v.profiles) ∧
    ((Validate net v).1 = true ↔ (Validate net v).2 = []) ∧
    (v.groupID = [] → v.artifactID = [] →
      (strL "group_id", strL "Maven group ID is required") ∈ (Validate net v).2 ∧
      (strL "artifact_id", strL "Maven artifact ID is required") ∈ (Validate net v).2) ∧
    (∀ (p e : Str), p ∈ v.profiles → validateProfile p = some e →
      (strL "profiles", strL "invalid profile '" ++ p ++ strL "': " ++ e) ∈
        (Validate net v).2) ∧
    Validate net ({} : ValidateInput) =
      (false, [(strL "group_id", strL "Maven group ID is required"),
               (strL "artifact_id", strL "Maven artifact ID is required")]) := by
  refine ⟨rfl, ?_, ?_, ?_, by rfl⟩
  · simp [Validate, List.isEmpty_iff]
  · intro hg ha
    constructor
    · simp [Validate, checkGroupID, hg]
    · simp [Validate, checkArtifactID, ha]
  · intro p e hp he
    have hmem : (strL "profiles", strL "invalid profile '" ++ p ++ strL "': " ++ e) ∈
        checkProfileList v.profiles := by
      unfold checkProfileList
      refine List.mem_flatMap.mpr ⟨p, hp, ?_⟩
      simp [he]
    simp [Validate]
    simp [List.append_assoc] at hmem
    tauto

/-- Witness for C8: the clauses instantiated at the empty configuration and
a bad profile. -/
theorem Validate_exhaustive_witness :
    ((strL "group_id", strL "Maven group ID is required") ∈
      (Validate witnessNet ({} : ValidateInput)).2 ∧
     (strL "artifact_id", strL "Maven artifact ID is required") ∈
      (Validate witnessNet ({} : ValidateInput)).2) ∧
    (strL "profiles", strL "invalid profile '" ++ strL "1bad" ++ strL "': " ++
        strL "invalid profile name: must be alphanumeric with dashes or underscores") ∈
      (Validate witnessNet { profiles := [strL "1bad"] }).2 :=
  ⟨(Validate_exhaustive witnessNet ({} : ValidateInput)).2.2.1 rfl rfl,
   (Validate_exhaustive witnessNet { profiles := [strL "1bad"] }).2.2.2.1
     (strL "1bad") _ (by decide) (by rfl)⟩

/-- A list avoiding `'/'` never yields `'/'` under `getD` with default `' '`. -/
lemma getD_ne_slash {l : Str} (h : '/' ∉ l) (n : Nat) : l.getD n ' ' ≠ '/' := by
  induction l generalizing n with
  | nil => simp [List.getD]
  | cons a t ih =>
    cases n with
    | zero =>
      simp only [List.getD_cons_zero]
      intro hc
      exact h (hc ▸ List.mem_cons_self a t)
    | succ m =>
      simp only [List.getD_cons_succ]
      exact ih (fun hm => h (List.mem_cons_of_mem _ hm)) m

/-- Reading an appended list exactly at the boundary. -/
lemma getD_append_length (l1 l2 : Str) (x : Char) (d : Char) :
    (l1 ++ x :: l2).getD l1.length d = x := by
  rw [List.getD_eq_getElem?_getD, List.getElem?_append_right (Nat.le_refl _)]
  simp

/-- Reading an appended list beyond the boundary. -/
lemma getD_append_big (l1 l2 : Str) (x : Char) (d : Char) (i : Nat) (h : l1.length < i) :
    (l1 ++ x :: l2).getD i d = l2.getD (i - l1.length - 1) d := by
  rw [List.getD_eq_getElem?_getD, List.getElem?_append_right (by omega)]
  rcases Nat.exists_eq_add_of_lt h with ⟨n, rfl⟩
  have : l1.length + n + 1 - l1.length = n + 1 := by omega
  rw [this]
  simp [List.getD_eq_getElem?_getD]

/-- `intercalate` on a singleton. -/
lemma inter_single (sep s : Str) : List.intercalate sep [s] = s := by
  simp [List.intercalate]

/-- `intercalate` on a list of two or more. -/
lemma inter_cons (sep s t : Str) (ts : List Str) :
    List.intercalate sep (s :: t :: ts) = s ++ sep ++ List.intercalate sep (t :: ts) := by
  simp [List.intercalate, List.intersperse]

/-- `intercalate` over an appended final element. -/
lemma inter_concat (sep : Str) (init : List Str) (x : Str) (h : init ≠ []) :
    List.intercalate sep (init ++ [x]) = List.intercalate sep init ++ sep ++ x := by
  induction init with
  | nil => exact absurd rfl h
  | cons a t ih =>
    cases t with
    | nil => simp [inter_cons, inter_single]
    | cons b t2 =>
      have ih2 := ih (by simp)
      rw [List.cons_append, List.cons_append, inter_cons, ← List.cons_append, ih2, inter_cons]
      simp [List.append_assoc]

/-- The backtracking loop stops at the first index holding `'/'` (or at
`dotdot`), scanning downward through non-separator characters. -/
lemma backW_spec (out : Str) (dotdot j : Nat)
    (hstop : j = dotdot ∨ out.getD j ' ' = '/') (hdj : dotdot ≤ j) :
    ∀ w, j ≤ w → (∀ i, j < i → out.getD i ' ' ≠ '/') → backW out dotdot w = j := by
  intro w
  induction w with
  | zero =>
    intro hjw _
    have : j = 0 := by omega
    simp [backW, this]
  | succ w ih =>
    intro hjw hchars
    by_cases hj : j = w + 1
    · have hcond : ¬ (w + 1 > dotdot ∧ out.getD (w + 1) ' ' ≠ '/') := by
        rw [← hj]
        rcases hstop with h | h
        · intro hc
          omega
        · intro hc
          exact hc.2 h
      simp only [backW]
      rw [if_neg hcond]
      omega
    · have hlt : j ≤ w := by omega
      have h1 : out.getD (w + 1) ' ' ≠ '/' := hchars _ (by omega)
      have h2 : w + 1 > dotdot := by omega
      simp only [backW]
      rw [if_pos ⟨h2, h1⟩]
      exact ih hlt hchars

/-- Well-formed segment lists of a rooted cleaned path: every segment is
nonempty, separator-free, and not the parent-directory element. -/
def segsOk (segs : List Str) : Prop :=
  ∀ s ∈ segs, s ≠ [] ∧ '/' ∉ s ∧ s ≠ strL ".."

/-- `intercalate` of well-formed segments is empty only for no segments. -/
lemma inter_eq_nil_iff {segs : List Str} (h : segsOk segs) :
    List.intercalate (strL "/") segs = [] ↔ segs = [] := by
  cases segs with
  | nil => simp [List.intercalate]
  | cons s t =>
    have hs := (h s (List.mem_cons_self s t)).1
    cases t with
    | nil => simp [inter_single, hs]
    | cons b t2 =>
      rw [inter_cons]
      simp [hs]

/-- Dropping the last segment preserves well-formedness. -/
lemma segsOk_dropLast {segs : List Str} (h : segsOk segs) : segsOk segs.dropLast :=
  fun s hs => h s ((List.dropLast_prefix segs).subset hs)

/-- The `..` backtracking of `cleanLoop` removes exactly the last segment
of a rooted output buffer. -/
lemma pop_last (segs : List Str) (h : segsOk segs) (hne : segs ≠ []) :
    ('/' :: List.intercalate (strL "/") segs).take
      (backW ('/' :: List.intercalate (strL "/") segs) 1
        (('/' :: List.intercalate (strL "/") segs).length - 1)) =
    '/' :: List.intercalate (strL "/") segs.dropLast := by
  obtain ⟨init, last, rfl⟩ : ∃ init last, segs = init ++ [last] :=
    ⟨segs.dropLast, segs.getLast hne, (List.dropLast_append_getLast hne).symm⟩
  obtain ⟨hlne, hlns, -⟩ := h last (by simp)
  rw [List.dropLast_concat]
  by_cases hinit : init = []
  · subst hinit
    rw [List.nil_append, inter_single]
    have hlast : 1 ≤ last.length := List.length_pos.mpr hlne
    have hb : backW ('/' :: last) 1 (('/' :: last).length - 1) = 1 := by
      apply backW_spec _ _ _ (Or.inl rfl) (Nat.le_refl _)
      · simp
        omega
      · intro i hi
        cases i with
        | zero => omega
        | succ n =>
          rw [List.getD_cons_succ]
          exact getD_ne_slash hlns n
    rw [hb]
    simp [List.intercalate]
  · have hout : '/' :: List.intercalate (strL "/") (init ++ [last]) =
        ('/' :: List.intercalate (strL "/") init) ++ '/' :: last := by
      rw [inter_concat _ _ _ hinit]
      simp [strL, List.append_assoc]
    rw [hout]
    have hlen : (('/' :: List.intercalate (strL "/") init) ++ '/' :: last).length - 1 =
        ('/' :: List.intercalate (strL "/") init).length + last.length := by
      simp
      omega
    have hb : backW (('/' :: List.intercalate (strL "/") init) ++ '/' :: last) 1
        (('/' :: List.intercalate (strL "/") init).length + last.length) =
        ('/' :: List.intercalate (strL "/") init).length := by
      apply backW_spec
      · right
        exact getD_append_length _ _ _ _
      · simp
      · omega
      · intro i hi
        rw [getD_append_big _ _ _ _ _ hi]
        exact getD_ne_slash hlns _
    rw [hlen, hb, List.take_left]

/-- If `takeWhile` up to a separator returns exactly `"."`, the input
starts with a `"."` element. -/
lemma takeWhile_eq_dot {rest : Str}
    (h : rest.takeWhile (fun x => x ≠ '/') = ['.']) :
    rest.head? = some '.' ∧ (rest.tail = [] ∨ rest.tail.head? = some '/') := by
  cases rest with
  | nil => simp at h
  | cons r rs =>
    rw [List.takeWhile_cons] at h
    by_cases hr : r = '/'
    · simp [hr] at h
    · simp only [decide_eq_true_eq, hr, not_false_eq_true, if_pos, decide_not] at h
      have h2 : r = '.' ∧ rs.takeWhile (fun x => !decide (x = '/')) = [] := by
        have := List.cons.injEq r (rs.takeWhile _) '.' [] ▸ h
        simpa using h
      obtain ⟨hr2, hrs⟩ := h2
      refine ⟨by simp [hr2], ?_⟩
      cases rs with
      | nil => exact Or.inl rfl
      | cons q qs =>
        rw [List.takeWhile_cons] at hrs
        by_cases hq : q = '/'
        · exact Or.inr (by simp [hq])
        · simp [hq] at hrs

/-- The element copied by the default branch of `cleanLoop` is a
well-formed segment. -/
lemma seg_ok (c : Char) (rest : Str) (h1 : ¬ c = '/')
    (h3 : ¬ (c = '.' ∧ rest.head? = some '.' ∧
      (rest.tail = [] ∨ rest.tail.head? = some '/'))) :
    (c :: rest.takeWhile (fun x => x ≠ '/')) ≠ [] ∧
    '/' ∉ (c :: rest.takeWhile (fun x => x ≠ '/')) ∧
    (c :: rest.takeWhile (fun x => x ≠ '/')) ≠ strL ".." := by
  refine ⟨by simp, ?_, ?_⟩
  · intro hmem
    rcases List.mem_cons.mp hmem with he | he
    · exact h1 he.symm
    · have := List.mem_takeWhile_imp he
      simp at this
  · intro he
    have hc : c = '.' ∧ rest.takeWhile (fun x => x ≠ '/') = ['.'] := by
      have : strL ".." = '.' :: ['.'] := rfl
      rw [this] at he
      exact ⟨(List.cons.injEq _ _ _ _ ▸ he).1, (List.cons.injEq _ _ _ _ ▸ he).2⟩
    obtain ⟨hd, htw⟩ := hc
    exact h3 ⟨hd, takeWhile_eq_dot htw⟩

/-- Appending a segment after a separator extends the intercalation. -/
lemma cons_inter_concat (segs : List Str) (seg : Str) (h : segs ≠ []) :
    ('/' :: List.intercalate (strL "/") segs) ++ ['/'] ++ seg =
    '/' :: List.intercalate (strL "/") (segs ++ [seg]) := by
  rw [inter_concat _ _ _ h]
  have hsep : strL "/" = ['/'] := rfl
  simp [hsep, List.append_assoc]

/-- Invariant of the rooted `cleanLoop`: from a buffer holding `'/'`
followed by well-formed segments, the loop again produces `'/'` followed
by well-formed segments. -/
lemma cleanLoop_rooted_inv (fuel : Nat) : ∀ (path : Str) (segs : List Str), segsOk segs →
    ∃ segs2, segsOk segs2 ∧
      cleanLoop true fuel path ('/' :: List.intercalate (strL "/") segs) 1 =
        '/' :: List.intercalate (strL "/") segs2 := by
  induction fuel with
  | zero =>
    intro path segs h
    refine ⟨segs, h, ?_⟩
    cases path <;> rfl
  | succ fuel ih =>
    intro path segs h
    cases path with
    | nil => exact ⟨segs, h, rfl⟩
    | cons c rest =>
      simp only [cleanLoop]
      by_cases h1 : c = '/'
      · rw [if_pos h1]
        exact ih rest segs h
      · rw [if_neg h1]
        by_cases h2 : c = '.' ∧ (rest = [] ∨ rest.head? = some '/')
        · rw [if_pos h2]
          exact ih rest segs h
        · rw [if_neg h2]
          by_cases h3 : c = '.' ∧ rest.head? = some '.' ∧
            (rest.tail = [] ∨ rest.tail.head? = some '/')
          · rw [if_pos h3]
            by_cases h4 : ('/' :: List.intercalate (strL "/") segs).length > 1
            · rw [if_pos h4]
              have hsne : segs ≠ [] := by
                intro e
                rw [e] at h4
                simp [List.intercalate] at h4
              rw [pop_last segs h hsne]
              exact ih rest.tail _ (segsOk_dropLast h)
            · rw [if_neg h4, if_neg (by simp)]
              exact ih rest.tail segs h
          · rw [if_neg h3]
            obtain ⟨hne, hns, hdd⟩ := seg_ok c rest h1 h3
            by_cases hsegs : segs = []
            · subst hsegs
              rw [if_neg (by simp [List.intercalate])]
              have heq : ('/' :: List.intercalate (strL "/") ([] : List Str)) ++
                  (c :: rest.takeWhile (fun x => x ≠ '/')) =
                  '/' :: List.intercalate (strL "/")
                    [c :: rest.takeWhile (fun x => x ≠ '/')] := by
                rw [inter_single]
                simp [List.intercalate]
              rw [heq]
              refine ih _ _ ?_
              intro s hs
              rw [List.mem_singleton.mp hs]
              exact ⟨hne, hns, hdd⟩
            · have hlong : ('/' :: List.intercalate (strL "/") segs).length ≠ 1 := by
                have hn : List.intercalate (strL "/") segs ≠ [] :=
                  fun e => hsegs ((inter_eq_nil_iff h).mp e)
                have hpos := List.length_pos.mpr hn
                simp only [List.length_cons]
                omega
              rw [if_pos (Or.inl ⟨trivial, hlong⟩), cons_inter_concat segs _ hsegs]
              refine ih _ _ ?_
              intro s hs
              rcases List.mem_append.mp hs with hs | hs
              · exact h s hs
              · rw [List.mem_singleton.mp hs]
                exact ⟨hne, hns, hdd⟩

/-- Invariant of the unrooted `cleanLoop`: the buffer never starts with a
separator. -/
lemma cleanLoop_unrooted_head (fuel : Nat) : ∀ (path out : Str) (dotdot : Nat),
    (out = [] ∨ ∃ a t, out = a :: t ∧ a ≠ '/') →
    (cleanLoop false fuel path out dotdot = [] ∨
      ∃ a t, cleanLoop false fuel path out dotdot = a :: t ∧ a ≠ '/') := by
  induction fuel with
  | zero =>
    intro path out dotdot h
    cases path <;> exact h
  | succ fuel ih =>
    intro path out dotdot h
    cases path with
    | nil => exact h
    | cons c rest =>
      simp only [cleanLoop]
      by_cases h1 : c = '/'
      · rw [if_pos h1]
        exact ih rest out dotdot h
      · rw [if_neg h1]
        by_cases h2 : c = '.' ∧ (rest = [] ∨ rest.head? = some '/')
        · rw [if_pos h2]
          exact ih rest out dotdot h
        · rw [if_neg h2]
          by_cases h3 : c = '.' ∧ rest.head? = some '.' ∧
            (rest.tail = [] ∨ rest.tail.head? = some '/')
          · rw [if_pos h3]
            by_cases h4 : out.length > dotdot
            · rw [if_pos h4]
              refine ih rest.tail _ dotdot ?_
              rcases h with he | ⟨a, t, he, ha⟩
              · subst he
                simp
              · subst he
                cases hb : backW (a :: t) dotdot ((a :: t).length - 1) with
                | zero => simp
                | succ m => exact Or.inr ⟨a, t.take m, by simp, ha⟩
            · rw [if_neg h4, if_pos trivial]
              refine ih rest.tail _ _ ?_
              rcases h with he | ⟨a, t, he, ha⟩
              · subst he
                exact Or.inr ⟨'.', ['.'], by simp, by decide⟩
              · subst he
                refine Or.inr ⟨a, t ++ ['/'] ++ ['.', '.'], ?_, ha⟩
                simp [List.append_assoc]
          · rw [if_neg h3]
            refine ih _ _ dotdot ?_
            rcases h with he | ⟨a, t, he, ha⟩
            · subst he
              rw [if_neg (by simp)]
              exact Or.inr ⟨c, rest.takeWhile (fun x => x ≠ '/'), by simp, h1⟩
            · subst he
              rw [if_pos (Or.inr ⟨trivial, by simp⟩)]
              refine Or.inr ⟨a, t ++ '/' :: c :: rest.takeWhile (fun x => x ≠ '/'), ?_, ha⟩
              simp [List.append_assoc]

/-- Whether a string starts with a complete `".."` path element
(the element ends at a separator or at the end of the string). -/
def dotdotBoundary : Str → Bool
  | '.' :: '.' :: [] => true
  | '.' :: '.' :: '/' :: _ => true
  | _ => false

/-- Whether a string contains a `".."` path element preceded by a
separator and followed by a separator or the end. -/
def hasDotDotSeg : Str → Bool
  | [] => false
  | c :: rest => (decide (c = '/') && dotdotBoundary rest) || hasDotDotSeg rest

/-- Characterization of `dotdotBoundary`. -/
lemma dotdotBoundary_eq (x : Str) :
    dotdotBoundary x = true ↔ (x = strL ".." ∨ ∃ t, x = '.' :: '.' :: '/' :: t) := by
  constructor
  · intro h
    unfold dotdotBoundary at h
    split at h
    · exact Or.inl rfl
    · exact Or.inr ⟨_, rfl⟩
    · cases h
  · rintro (rfl | ⟨t, rfl⟩) <;> rfl

/-- The scanner ignores a separator-free prefix. -/
lemma hasDotDotSeg_append (s : Str) (hs : '/' ∉ s) (t : Str) :
    hasDotDotSeg (s ++ t) = hasDotDotSeg t := by
  induction s with
  | nil => rfl
  | cons a s2 ih =>
    have ha : ¬ a = '/' := fun e => hs (by rw [e]; exact List.mem_cons_self _ _)
    have ih2 := ih (fun hm => hs (List.mem_cons_of_mem _ hm))
    simp only [List.cons_append, hasDotDotSeg, decide_eq_true_eq]
    rw [decide_eq_false ha]
    simp [ih2]

/-- A scanner hit contains `"/.."` as an infix. -/
lemma hasDotDotSeg_infix (c : Str) (h : hasDotDotSeg c = true) : strL "/.." <:+: c := by
  induction c with
  | nil => cases h
  | cons a rest ih =>
    simp only [hasDotDotSeg, Bool.or_eq_true, Bool.and_eq_true, decide_eq_true_eq] at h
    rcases h with ⟨ha, hb⟩ | h
    · rcases (dotdotBoundary_eq rest).mp hb with he | ⟨t, he⟩
      · rw [ha, he]
        exact List.infix_refl _
      · rw [ha, he]
        exact ⟨[], '/' :: t, rfl⟩
    · exact (ih h).trans (List.suffix_cons a rest).isInfix

/-- A complete `".."` element never starts inside a well-formed segment
followed by a separator or nothing. -/
lemma dotdotBoundary_seg (s : Str) (hne : s ≠ []) (hns : '/' ∉ s) (hndd : s ≠ strL "..")
    (t : Str) (ht : t = [] ∨ ∃ t2, t = '/' :: t2) : dotdotBoundary (s ++ t) = false := by
  by_contra hc
  rw [Bool.not_eq_false] at hc
  rcases (dotdotBoundary_eq _).mp hc with he | ⟨t3, he⟩
  · -- s ++ t = ".."
    cases s with
    | nil => exact hne rfl
    | cons a s1 =>
      cases s1 with
      | nil =>
        -- s = [a], so t = ['.'] — impossible for both shapes of t
        rw [List.cons_append, List.nil_append] at he
        have h1 : t = ['.'] := (List.cons.injEq _ _ _ _ ▸ he).2
        rcases ht with rfl | ⟨t2, rfl⟩
        · cases h1
        · exact absurd ((List.cons.injEq _ _ _ _ ▸ h1).1) (by decide)
      | cons b s2 =>
        cases s2 with
        | nil =>
          -- s = [a, b] and t = [], so s = ".."
          rw [List.cons_append, List.cons_append, List.nil_append] at he
          have ha : a = '.' := (List.cons.injEq _ _ _ _ ▸ he).1
          have he1 : b :: t = ['.'] := (List.cons.injEq _ _ _ _ ▸ he).2
          have hb : b = '.' := (List.cons.injEq _ _ _ _ ▸ he1).1
          refine hndd ?_
          rw [ha, hb]
          decide
        | cons d s3 =>
          -- s has at least three characters but ".." has two
          have hl := congrArg List.length he
          have h2 : (strL "..").length = 2 := rfl
          rw [h2] at hl
          simp [List.length_append] at hl
  · -- s ++ t = '.' :: '.' :: '/' :: t3: the slash must come from t,
    -- so s is exactly ".."
    cases s with
    | nil => exact hne rfl
    | cons a s1 =>
      rw [List.cons_append] at he
      have ha : a = '.' := (List.cons.injEq _ _ _ _ ▸ he).1
      have he1 : s1 ++ t = '.' :: '/' :: t3 := (List.cons.injEq _ _ _ _ ▸ he).2
      cases s1 with
      | nil =>
        -- s = ['.'], t starts with '.', impossible for both shapes of t
        rw [List.nil_append] at he1
        rcases ht with rfl | ⟨t2, rfl⟩
        · cases he1
        · exact absurd ((List.cons.injEq _ _ _ _ ▸ he1).1) (by decide)
      | cons b s2 =>
        rw [List.cons_append] at he1
        have hb : b = '.' := (List.cons.injEq _ _ _ _ ▸ he1).1
        have he2 : s2 ++ t = '/' :: t3 := (List.cons.injEq _ _ _ _ ▸ he1).2
        cases s2 with
        | nil =>
          refine hndd ?_
          rw [ha, hb]
          decide
        | cons d s3 =>
          rw [List.cons_append] at he2
          have hd : d = '/' := (List.cons.injEq _ _ _ _ ▸ he2).1
          refine hns ?_
          rw [← hd]
          exact List.mem_cons_of_mem _ (List.mem_cons_of_mem _ (List.mem_cons_self _ _))

/-- A rooted intercalation of well-formed segments has no `".."` element. -/
lemma hasDotDotSeg_inter (segs : List Str) (h : segsOk segs) :
    hasDotDotSeg ('/' :: List.intercalate (strL "/") segs) = false := by
  induction segs with
  | nil => rfl
  | cons s rest ih =>
    obtain ⟨hne, hns, hndd⟩ := h s (List.mem_cons_self _ _)
    have hrest : segsOk rest := fun x hx => h x (List.mem_cons_of_mem _ hx)
    cases rest with
    | nil =>
      rw [inter_single]
      simp only [hasDotDotSeg, decide_eq_true_eq]
      have h1 : dotdotBoundary s = false := by
        have := dotdotBoundary_seg s hne hns hndd [] (Or.inl rfl)
        simpa using this
      have h2 : hasDotDotSeg s = false := by
        have := hasDotDotSeg_append s hns []
        simpa using this
      simp [h1, h2]
    | cons s2 rest2 =>
      rw [inter_cons]
      have hassoc : s ++ strL "/" ++ List.intercalate (strL "/") (s2 :: rest2) =
          s ++ '/' :: List.intercalate (strL "/") (s2 :: rest2) := by
        rw [List.append_assoc]
        rfl
      rw [hassoc]
      simp only [hasDotDotSeg, decide_eq_true_eq]
      have h1 : dotdotBoundary (s ++ '/' :: List.intercalate (strL "/") (s2 :: rest2)) =
          false :=
        dotdotBoundary_seg s hne hns hndd _ (Or.inr ⟨_, rfl⟩)
      have h2 : hasDotDotSeg (s ++ '/' :: List.intercalate (strL "/") (s2 :: rest2)) =
          hasDotDotSeg ('/' :: List.intercalate (strL "/") (s2 :: rest2)) :=
        hasDotDotSeg_append s hns _
      simp [h1, h2, ih hrest]

/-- `goClean` on a rooted path. -/
lemma goClean_rooted (rest : Str) :
    goClean ('/' :: rest) =
      (if cleanLoop true ('/' :: rest).length rest ['/'] 1 = [] then strL "."
       else cleanLoop true ('/' :: rest).length rest ['/'] 1) := by
  unfold goClean
  simp

/-- `goClean` on an unrooted path. -/
lemma goClean_unrooted (c : Char) (rest : Str) (hc : ¬ c = '/') :
    goClean (c :: rest) =
      (if cleanLoop false (c :: rest).length (c :: rest) [] 0 = [] then strL "."
       else cleanLoop false (c :: rest).length (c :: rest) [] 0) := by
  unfold goClean
  simp [hc]

/-- An absolute cleaned path is a separator followed by well-formed
segments. -/
lemma goClean_abs_structure (p : Str) (habs : goIsAbs (goClean p) = true) :
    ∃ segs, segsOk segs ∧ goClean p = '/' :: List.intercalate (strL "/") segs := by
  cases p with
  | nil => exact absurd habs (by decide)
  | cons c rest =>
    by_cases hc : c = '/'
    · subst hc
      obtain ⟨segs2, h2, he⟩ :=
        cleanLoop_rooted_inv ('/' :: rest).length rest [] (by intro s hs; cases hs)
      have he2 : cleanLoop true ('/' :: rest).length rest ['/'] 1 =
          '/' :: List.intercalate (strL "/") segs2 := he
      refine ⟨segs2, h2, ?_⟩
      rw [goClean_rooted, he2, if_neg (by simp)]
    · rcases cleanLoop_unrooted_head (c :: rest).length (c :: rest) [] 0 (Or.inl rfl) with
        he | ⟨a, t, he, ha⟩
      · rw [goClean_unrooted c rest hc, he, if_pos rfl] at habs
        exact absurd habs (by decide)
      · rw [goClean_unrooted c rest hc, he, if_neg (by simp)] at habs
        have hpre : strL "/" <+: a :: t := by
          simpa [goIsAbs] using habs
        have hpre2 : '/' :: ([] : Str) <+: a :: t := hpre
        exact absurd (List.cons_prefix_cons.mp hpre2).1.symm ha

/-- An absolute cleaned path neither contains a `".."` element nor begins
with one. -/
lemma goClean_abs_no_traversal (p : Str) (habs : goIsAbs (goClean p) = true) :
    hasDotDotSeg (goClean p) = false ∧
    ¬ (goClean p = strL ".." ∨ strL "../" <+: goClean p) := by
  obtain ⟨segs, hok, he⟩ := goClean_abs_structure p habs
  refine ⟨by rw [he]; exact hasDotDotSeg_inter segs hok, ?_⟩
  rw [he]
  rintro (hc | hc)
  · rw [show strL ".." = '.' :: '.' :: [] from rfl] at hc
    exact absurd (List.cons.injEq _ _ _ _ ▸ hc).1 (by decide)
  · rw [show strL "../" = '.' :: '.' :: '/' :: [] from rfl] at hc
    exact absurd (List.cons_prefix_cons.mp hc).1 (by decide)

/-- The spec's "canonical form begins with a parent-directory segment". -/
def beginsParentSeg (c : Str) : Prop := c = strL ".." ∨ strL "../" <+: c

instance (c : Str) : Decidable (beginsParentSeg c) := by
  unfold beginsParentSeg
  infer_instance

/-- C2: the path validator accepts the empty path, rejects any path whose
canonical form is absolute with the absolute-path error, rejects any path
whose canonical form begins with a parent-directory segment or contains
one bounded by separators with the traversal error, and in particular
rejects both `"../../etc/passwd"` and `"a/../../etc/passwd"`. -/
theorem validatePath_spec (p : Str) :
    (validatePath [] = none) ∧
    (p ≠ [] → goIsAbs (goClean p) = true →
      validatePath p = some (strL "absolute paths are not allowed")) ∧
    (p ≠ [] → (beginsParentSeg (goClean p) ∨ hasDotDotSeg (goClean p) = true) →
      validatePath p =
        some (strL "path traversal detected: cannot use '..' to escape working directory")) ∧
    validatePath (strL "../../etc/passwd") =
      some (strL "path traversal detected: cannot use '..' to escape working directory") ∧
    validatePath (strL "a/../../etc/passwd") =
      some (strL "path traversal detected: cannot use '..' to escape working directory") := by
  refine ⟨by rfl, ?_, ?_, by decide, by decide⟩
  · intro hp habs
    rw [validatePath, if_neg hp, if_pos habs]
  · intro hp hyp
    have habs : goIsAbs (goClean p) = false := by
      by_contra hcontra
      rw [Bool.not_eq_false] at hcontra
      obtain ⟨hno, hnb⟩ := goClean_abs_no_traversal p hcontra
      rcases hyp with hb | hd
      · exact hnb hb
      · rw [hno] at hd
        cases hd
    rw [validatePath, if_neg hp, if_neg (by simp [habs]), if_pos ?_]
    rcases hyp with hb | hd
    · left
      rcases hb with hb | hb
      · rw [hb]
      · exact (by decide : strL ".." <+: strL "../").trans hb
    · right
      exact hasDotDotSeg_infix _ hd

/-- Witness for C2: the absolute and the traversal clauses at concrete
paths. -/
theorem validatePath_spec_witness :
    validatePath (strL "/etc/shadow") = some (strL "absolute paths are not allowed") ∧
    validatePath (strL "b/../../x") =
      some (strL "path traversal detected: cannot use '..' to escape working directory") :=
  ⟨(validatePath_spec (strL "/etc/shadow")).2.1 (by decide) (by decide),
   (validatePath_spec (strL "b/../../x")).2.2.1 (by decide) (by decide)⟩

/-- C10: `"..config"` is a relative path whose canonical form contains no
parent-directory segment and does not begin with one, yet the raw
two-character prefix test rejects it with the traversal error. -/
theorem validatePath_dotfile_overreject :
    validatePath (strL "..config") =
      some (strL "path traversal detected: cannot use '..' to escape working directory") ∧
    goClean (strL "..config") = strL "..config" ∧
    ¬ beginsParentSeg (goClean (strL "..config")) ∧
    hasDotDotSeg (goClean (strL "..config")) = false ∧
    goIsAbs (goClean (strL "..config")) = false := by
  refine ⟨by decide, by decide, by decide, by decide, by decide⟩
